import Mathlib

/-!
Verification of the i3cat stream-aggregation program (blocks.go, main.go).

The Go source is shallowly embedded: JSON documents are an inductive AST,
the `encoding/json` struct (un)marshalling of the concrete protocol types
is spelled out field by field following the struct tags in the source,
byte streams are modelled as a buffered reader (a current buffer plus the
chunks a future fill would return), and the goroutine loops become
explicit recursive functions (with fuel where the Go loop is endless).
-/

set_option autoImplicit false

/-- JSON documents, as produced/consumed by encoding/json.
Numbers are restricted to integers: every number field of the protocol
structs (`version`, signal numbers, widths, click coordinates) is a Go
`int`. -/
inductive Json where
  | str (s : String)
  | num (n : Int)
  | bool (b : Bool)
  | null
  | arr (elems : List Json)
  | obj (fields : List (String × Json))

/-- Field lookup in a decoded JSON object, mirroring encoding/json where a
duplicated key keeps the last occurrence. -/
def lookupField (fields : List (String × Json)) (k : String) : Option Json :=
  match fields with
  | [] => none
  | (k', v) :: rest =>
    match lookupField rest k with
    | some w => some w
    | none => if k' == k then some v else none

/-- Block from blocks.go: the struct of blocks in the i3bar protocol,
with the default values Go gives to omitted fields (its zero values). -/
structure Block where
  FullText : String := ""
  ShortText : String := ""
  Color : String := ""
  MinWidth : Int := 0
  Align : String := ""
  Name : String := ""
  Instance : String := ""
  Urgent : Bool := false
  Separator : Bool := false
  SeparatorBlockWidth : Int := 0
  deriving DecidableEq

/-- trueBoolTransformer from blocks.go: keeps a `false` bool field,
drops (returns an empty field name for) a `true` one. -/
def trueBoolTransformer (field : String) (value : Bool) : Option (String × Json) :=
  if !value then some (field, Json.bool value) else none

/-- The fields structfield.Transform produces for a Block: each field
follows its json struct tag (`omitempty` drops the Go zero value), and
the `separator` field goes through trueBoolTransformer. -/
def Block.marshalFields (b : Block) : List (String × Json) :=
  [("full_text", Json.str b.FullText)]
  ++ (if b.ShortText = "" then [] else [("short_text", Json.str b.ShortText)])
  ++ (if b.Color = "" then [] else [("color", Json.str b.Color)])
  ++ (if b.MinWidth = 0 then [] else [("min_width", Json.num b.MinWidth)])
  ++ (if b.Align = "" then [] else [("align", Json.str b.Align)])
  ++ (if b.Name = "" then [] else [("name", Json.str b.Name)])
  ++ (if b.Instance = "" then [] else [("instance", Json.str b.Instance)])
  ++ (if b.Urgent = false then [] else [("urgent", Json.bool b.Urgent)])
  ++ (match trueBoolTransformer "separator" b.Separator with
      | some kv => [kv]
      | none => [])
  ++ (if b.SeparatorBlockWidth = 0 then [] else [("separator_block_width", Json.num b.SeparatorBlockWidth)])

/-- Block.MarshalJSON from blocks.go. -/
def Block.MarshalJSON (b : Block) : Json :=
  Json.obj b.marshalFields

/-- Decoding one string struct field: absent or JSON null leaves the Go
zero value, a string sets it, any other JSON value is a type error. -/
def decodeStringField (fields : List (String × Json)) (k : String) : Except String String :=
  match lookupField fields k with
  | none => Except.ok ""
  | some (Json.str s) => Except.ok s
  | some Json.null => Except.ok ""
  | some _ => Except.error ("json: cannot unmarshal value into Go struct field " ++ k ++ " of type string")

/-- Decoding one int struct field, as `decodeStringField`. -/
def decodeIntField (fields : List (String × Json)) (k : String) : Except String Int :=
  match lookupField fields k with
  | none => Except.ok 0
  | some (Json.num n) => Except.ok n
  | some Json.null => Except.ok 0
  | some _ => Except.error ("json: cannot unmarshal value into Go struct field " ++ k ++ " of type int")

/-- Decoding one bool struct field, as `decodeStringField`. -/
def decodeBoolField (fields : List (String × Json)) (k : String) : Except String Bool :=
  match lookupField fields k with
  | none => Except.ok false
  | some (Json.bool v) => Except.ok v
  | some Json.null => Except.ok false
  | some _ => Except.error ("json: cannot unmarshal value into Go struct field " ++ k ++ " of type bool")

/-- The plain decoding of a Block (the `blockAlias` step of
Block.UnmarshalJSON): every tagged field is read from the object, with
the Go zero value for an absent field. -/
def blockAliasUnmarshal (data : Json) : Except String Block :=
  match data with
  | Json.obj fields => do
    let ft ← decodeStringField fields "full_text"
    let st ← decodeStringField fields "short_text"
    let col ← decodeStringField fields "color"
    let mw ← decodeIntField fields "min_width"
    let al ← decodeStringField fields "align"
    let nm ← decodeStringField fields "name"
    let inst ← decodeStringField fields "instance"
    let urg ← decodeBoolField fields "urgent"
    let sep ← decodeBoolField fields "separator"
    let sbw ← decodeIntField fields "separator_block_width"
    Except.ok ⟨ft, st, col, mw, al, nm, inst, urg, sep, sbw⟩
  | _ => Except.error "json: cannot unmarshal value into Go value of type blockAlias"

/-- The second decoding step of Block.UnmarshalJSON: the `separator`
field read into a `*bool`, so that absence (and JSON null, which is a
decoding no-op) is observable as `none`. -/
def sepUnmarshal (data : Json) : Except String (Option Bool) :=
  match data with
  | Json.obj fields =>
    match lookupField fields "separator" with
    | none => Except.ok none
    | some (Json.bool v) => Except.ok (some v)
    | some Json.null => Except.ok none
    | some _ => Except.error "json: cannot unmarshal value into Go value of type *bool"
  | _ => Except.error "json: cannot unmarshal value into Go value of type struct"

/-- Block.UnmarshalJSON from blocks.go, as a function of the receiver's
previous value: returns the new value of the receiver together with the
returned error (`none` on success).  On a failed alias decode the
receiver is untouched; afterwards `separator` is replaced by the pointer
decode's result, defaulting to `true` when the field was absent. -/
def Block.UnmarshalJSON (b : Block) (data : Json) : Block × Option String :=
  match blockAliasUnmarshal data with
  | Except.error e => (b, some e)
  | Except.ok ba =>
    match sepUnmarshal data with
    | Except.error e => (ba, some e)
    | Except.ok (some v) => ({ ba with Separator := v }, none)
    | Except.ok none => ({ ba with Separator := true }, none)

/-- ClickEvent: data sent by i3bar when the user clicks a block. -/
structure ClickEvent where
  Name : String := ""
  Instance : String := ""
  Button : Int := 0
  X : Int := 0
  Y : Int := 0
  deriving DecidableEq

/-- The JSON encoding of a ClickEvent (none of its struct tags carries
`omitempty`, so every field is always present). -/
def ClickEvent.encode (ce : ClickEvent) : Json :=
  Json.obj [("name", Json.str ce.Name), ("instance", Json.str ce.Instance),
            ("button", Json.num ce.Button), ("x", Json.num ce.X), ("y", Json.num ce.Y)]

/-- Header from blocks.go: the struct of the header in the i3bar protocol. -/
structure Header where
  Version : Int := 0
  StopSignal : Int := 0
  ContSignal : Int := 0
  ClickEvents : Bool := false
  deriving DecidableEq

/-- The fields of the JSON encoding of a Header: `version` is always
present, the other three carry `omitempty` and are dropped at their Go
zero value. -/
def Header.marshalFields (h : Header) : List (String × Json) :=
  [("version", Json.num h.Version)]
  ++ (if h.StopSignal = 0 then [] else [("stop_signal", Json.num h.StopSignal)])
  ++ (if h.ContSignal = 0 then [] else [("cont_signal", Json.num h.ContSignal)])
  ++ (if h.ClickEvents = false then [] else [("click_events", Json.bool h.ClickEvents)])

/-- Header.MarshalJSON (the derived encoding/json marshalling of Header). -/
def Header.MarshalJSON (h : Header) : Json :=
  Json.obj h.marshalFields

/-- Linux signal numbers used by main.go via the syscall package. -/
def SIGUSR1 : Int := 10

/-- Linux signal number of SIGUSR2. -/
def SIGUSR2 : Int := 12

/-- Linux signal number of SIGSTOP. -/
def SIGSTOP : Int := 19

/-- Linux signal number of SIGCONT. -/
def SIGCONT : Int := 18

/-- The signal-resolution prologue of CatBlocksToI3Bar (main.go): the
signals forwarded to children default to SIGSTOP/SIGCONT unless the
configured header values are positive, and the header emitted afterwards
always carries SIGUSR1/SIGUSR2. Returns ((sigstop, sigcont), header as
emitted). -/
def resolveSignals (header : Header) : (Int × Int) × Header :=
  let sigstop := if header.StopSignal > 0 then header.StopSignal else SIGSTOP
  let sigcont := if header.ContSignal > 0 then header.ContSignal else SIGCONT
  ((sigstop, sigcont), { header with StopSignal := SIGUSR1, ContSignal := SIGUSR2 })

/-- The signals CatBlocksToI3Bar forwards to children on SIGUSR1/SIGUSR2. -/
def forwardedSignals (header : Header) : Int × Int :=
  (resolveSignals header).1

/-- The header JSON that CatBlocksToI3Bar prints once at startup. -/
def emittedHeader (header : Header) : Json :=
  Header.MarshalJSON (resolveSignals header).2

/-- One item written to the aggregator's output stream: a JSON document
(through the json.Encoder) or a raw byte string. -/
inductive Emission where
  | json (j : Json)
  | raw (s : String)

/-- The snapshot map of the BlockAggregator (`Blocks map[*CmdIO][]*Block`);
Command Sources are identified by their registration index. -/
def SnapshotMap : Type := Nat → Option (List Block)

/-- Storing one source's snapshot in the map
(`ba.Blocks[blockAggregate.CmdIO] = blockAggregate.Blocks`). -/
def storeSnapshot (blocks : SnapshotMap) (src : Nat) (snap : List Block) : SnapshotMap :=
  fun c => if c = src then some snap else blocks c

/-- The merged block list built by one Aggregate iteration: for each
registered source in order, append its stored snapshot (a source missing
from the map contributes nothing, like a nil map entry). -/
def mergedBlocks (blocks : SnapshotMap) : List Nat → List Block
  | [] => []
  | c :: rest => (blocks c).getD [] ++ mergedBlocks blocks rest

/-- BlockAggregator.Aggregate from blocks.go, consuming the update
channel as a list: store the update's snapshot, encode the merged list
of all sources' snapshots in registration order as one JSON array, write
it, then write the separator. -/
def BlockAggregator.Aggregate (cmdios : List Nat) (blocks : SnapshotMap) :
    List (Nat × List Block) → List Emission
  | [] => []
  | (src, snap) :: rest =>
    let blocks' := storeSnapshot blocks src snap
    Emission.json (Json.arr ((mergedBlocks blocks' cmdios).map Block.MarshalJSON))
      :: Emission.raw ","
      :: BlockAggregator.Aggregate cmdios blocks' rest

/-- Replaying a list of updates onto a snapshot map, one storeSnapshot
per update; the map the Aggregate loop holds after consuming them. -/
def applyUpdates (blocks : SnapshotMap) : List (Nat × List Block) → SnapshotMap
  | [] => blocks
  | u :: rest => applyUpdates (storeSnapshot blocks u.1 u.2) rest

/-- The snapshot most recently stored for a source by a list of updates
(`none` before the source's first update). -/
def lastStoredSnapshot (updates : List (Nat × List Block)) : SnapshotMap :=
  fun src => updates.foldl (fun acc u => if u.1 = src then some u.2 else acc) none

/-- The merged outputs the spec predicts at the given update indices:
after update `k` the output is the JSON array of the concatenation, in
registration order, of each source's most recently stored snapshot among
the first `k+1` updates, followed by the separator. -/
def mergedOutputsAt (cmdios : List Nat) (updates : List (Nat × List Block)) : List Nat → List Emission
  | [] => []
  | k :: ks =>
    Emission.json (Json.arr ((mergedBlocks (lastStoredSnapshot (updates.take (k + 1))) cmdios).map Block.MarshalJSON))
      :: Emission.raw ","
      :: mergedOutputsAt cmdios updates ks

/-- As `mergedOutputsAt`, but over the map obtained by replaying the
update prefix onto an arbitrary starting map (proof intermediary). -/
def mergedOutputsAux (cmdios : List Nat) (blocks : SnapshotMap) (updates : List (Nat × List Block)) :
    List Nat → List Emission
  | [] => []
  | k :: ks =>
    Emission.json (Json.arr ((mergedBlocks (applyUpdates blocks (updates.take (k + 1))) cmdios).map Block.MarshalJSON))
      :: Emission.raw ","
      :: mergedOutputsAux cmdios blocks updates ks

/-- The per-event body of BlockAggregator.ForwardClickEvents: scan the
registered sources in order; skip a source absent from the snapshot map;
on the first source whose snapshot holds a block with the event's name
and instance, write the event's JSON encoding to that source's input
stream (returned as the list of (source, written document) pairs) and
stop; with no match, nothing is written. -/
def forwardClickEvent (blocks : SnapshotMap) (ce : ClickEvent) : List Nat → List (Nat × Json)
  | [] => []
  | cmdio :: rest =>
    match blocks cmdio with
    | none => forwardClickEvent blocks ce rest
    | some bs =>
      if bs.any (fun b => b.Name == ce.Name && b.Instance == ce.Instance)
      then [(cmdio, ClickEvent.encode ce)]
      else forwardClickEvent blocks ce rest

/-- BlockAggregator.ForwardClickEvents over a list of received events. -/
def BlockAggregator.ForwardClickEvents (blocks : SnapshotMap) (cmdios : List Nat) :
    List ClickEvent → List (Nat × Json)
  | [] => []
  | ce :: rest =>
    forwardClickEvent blocks ce cmdios ++ BlockAggregator.ForwardClickEvents blocks cmdios rest

/-- A source's snapshot holds a block matching the click event. -/
def sourceMatches (blocks : SnapshotMap) (ce : ClickEvent) (c : Nat) : Prop :=
  ∃ b ∈ (blocks c).getD [], b.Name = ce.Name ∧ b.Instance = ce.Instance

/-- The observable outcome of CmdIo.Close: whether Close was invoked on
each stream handle, and the error Close returns. -/
structure CloseResult where
  readerClosed : Bool
  writerClosed : Bool
  err : Option String
  deriving DecidableEq

/-- CmdIO.Close from blocks.go, as a function of the error each
underlying stream's Close call would return: the reader is closed first
and a failure returns immediately, leaving the writer unclosed;
otherwise the writer is closed and its error (if any) returned. -/
def CmdIo.Close (readerErr writerErr : Option String) : CloseResult :=
  match readerErr with
  | some e => ⟨true, false, some e⟩
  | none =>
    match writerErr with
    | some e => ⟨true, true, some e⟩
    | none => ⟨true, true, none⟩

/-- The observable outcome of the per-source shutdown step. -/
structure TerminateResult where
  signalSent : Bool
  killAttempted : Bool
  close : CloseResult
  deriving DecidableEq

/-- The shutdown path of CatBlocksToI3Bar (main.go, interrupt branch)
for one source: send SIGTERM; if that fails, kill; in every case invoke
CmdIo.Close (its error is only logged). -/
def terminateCmdIo (signalFails : Bool) (readerErr writerErr : Option String) : TerminateResult :=
  ⟨!signalFails, signalFails, CmdIo.Close readerErr writerErr⟩

/-- A bufio.Reader over a source's output stream: the bytes currently
buffered, and the chunks each further fill of the buffer would return
from the underlying pipe. -/
structure Reader where
  buf : List Char
  pending : List (List Char)
  deriving DecidableEq

/-- All bytes the reader will ever deliver, in order. -/
def Reader.content (r : Reader) : List Char :=
  r.buf ++ r.pending.flatten

/-- Reading the first char out of the not-yet-buffered chunks (the
buffer-fill path of a bufio read). -/
def readChunks : List (List Char) → Option (Char × Reader)
  | [] => none
  | chunk :: ps =>
    match chunk with
    | c :: bs => some (c, ⟨bs, ps⟩)
    | [] => readChunks ps

/-- ReadRune: take the next char from the buffer, filling it from the
next pending chunk when empty; `none` is the end-of-stream read error. -/
def Reader.readRune (r : Reader) : Option (Char × Reader) :=
  match r.buf with
  | c :: bs => some (c, ⟨bs, r.pending⟩)
  | [] => readChunks r.pending

/-- UnreadRune: push the last read char back onto the buffer. -/
def Reader.unread (r : Reader) (c : Char) : Reader :=
  ⟨c :: r.buf, r.pending⟩

/-- The discard loop after a decode error
(`for r.Buffered() > 0 ... ReadByte`): empties the current buffer,
leaving the not-yet-buffered chunks of the stream untouched. -/
def Reader.discardBuffered (r : Reader) : Reader :=
  ⟨[], r.pending⟩

theorem readChunks_content {p : List (List Char)} {c : Char} {r' : Reader}
    (h : readChunks p = some (c, r')) : p.flatten = c :: r'.content := by
  induction p with
  | nil => cases h
  | cons chunk ps ih =>
    cases chunk with
    | nil =>
      simp only [readChunks] at h
      simpa [Reader.content] using ih h
    | cons a bs =>
      simp only [readChunks] at h
      cases h
      simp [Reader.content]

theorem readChunks_none {p : List (List Char)} (h : readChunks p = none) : p.flatten = [] := by
  induction p with
  | nil => rfl
  | cons chunk ps ih =>
    cases chunk with
    | nil =>
      simp only [readChunks] at h
      simpa using ih h
    | cons a bs => cases h

theorem Reader.readRune_content {r : Reader} {c : Char} {r' : Reader}
    (h : r.readRune = some (c, r')) : r.content = c :: r'.content := by
  cases r with
  | mk buf pending =>
    cases buf with
    | nil =>
      simp only [Reader.readRune] at h
      simpa [Reader.content] using readChunks_content h
    | cons a bs =>
      simp only [Reader.readRune] at h
      cases h
      simp [Reader.content]

theorem Reader.readRune_none {r : Reader} (h : r.readRune = none) : r.content = [] := by
  cases r with
  | mk buf pending =>
    cases buf with
    | nil =>
      simp only [Reader.readRune] at h
      simpa [Reader.content] using readChunks_none h
    | cons a bs => cases h

theorem Reader.readRune_of_content {r : Reader} {c : Char} {t : List Char}
    (h : r.content = c :: t) : ∃ r', r.readRune = some (c, r') ∧ r'.content = t := by
  match hr : r.readRune with
  | none =>
    have := Reader.readRune_none hr
    rw [this] at h
    cases h
  | some (c', r') =>
    have hc := Reader.readRune_content hr
    rw [h] at hc
    cases hc
    exact ⟨r', rfl, rfl⟩

theorem Reader.readRune_length {r : Reader} {c : Char} {r' : Reader}
    (h : r.readRune = some (c, r')) : r'.content.length < r.content.length := by
  have := Reader.readRune_content h
  simp [this]

/-- unicode.IsSpace restricted to the space characters that can occur in
the protocol streams (the Latin-1 range of Go's definition). -/
def unicodeIsSpace (c : Char) : Bool :=
  c = ' ' || c = '\t' || c = '\n' || c = '\x0b' || c = '\x0c' || c = '\r' || c = '\x85' || c = '\xa0'

/-- The IgnoreChars loop of CmdIO.Start: read runes, looping on
whitespace; stop after consuming a single comma; unread any other rune;
stop on a read error (end of stream). -/
def skipIgnoreChars (r : Reader) : Reader :=
  match h : r.readRune with
  | none => r
  | some (c, r') =>
    if unicodeIsSpace c then skipIgnoreChars r'
    else if c = ',' then r'
    else r'.unread c
  termination_by r.content.length
  decreasing_by
    exact Reader.readRune_length h

/-- bufio ReadString up to and including a newline; `none` when the
stream ends first (the Go code treats that error as fatal). -/
def readLine (r : Reader) : Option Reader :=
  match h : r.readRune with
  | none => none
  | some (c, r') => if c = '\n' then some r' else readLine r'
  termination_by r.content.length
  decreasing_by
    exact Reader.readRune_length h

/-- The header-detection prologue of CmdIO.Start: read the first rune
(on a read error the goroutine exits, `none`); when it is the opening
brace of a header object, consume that line and the following
array-opening line without inspecting them; otherwise unread the rune
and leave the stream as-is for the decode loop. -/
def consumeHeader (r : Reader) : Option Reader :=
  match r.readRune with
  | none => none
  | some (c, r') =>
    if c = '\x7b' then
      match readLine r' with
      | none => none
      | some r2 => readLine r2
    else some (r'.unread c)

/-- What one call of json.Decoder.Decode into `[]*Block` does to the
stream: end-of-stream, a decode failure leaving the reader somewhere
inside the bad input, or a decoded snapshot. The decoder itself is
encoding/json, outside this repository, so the loop below is stated for
an arbitrary decode function. -/
inductive DecodeResult where
  | eof
  | fail (cause : String) (rest : Reader)
  | ok (blocks : List Block) (rest : Reader)

/-- The synthetic block CmdIO.Start sends after a decode failure. -/
def errorBlock (cause : String) : Block :=
  { FullText := "Error parsing input: " ++ cause, Color := "#FF0000" }

/-- The outcome of one iteration of the CmdIO.Start decode loop. -/
inductive StepResult where
  | emit (snapshot : List Block) (next : Reader)
  | stop

/-- One iteration of the CmdIO.Start decode loop: skip ignored chars,
decode; on EOF return from the goroutine; on another failure discard the
buffered bytes and emit the one-element error snapshot; on success emit
the decoded snapshot. -/
def startStep (decode : Reader → DecodeResult) (r : Reader) : StepResult :=
  match decode (skipIgnoreChars r) with
  | DecodeResult.eof => StepResult.stop
  | DecodeResult.fail cause r2 => StepResult.emit [errorBlock cause] r2.discardBuffered
  | DecodeResult.ok bs r2 => StepResult.emit bs r2

/-- The CmdIO.Start decode loop, run for `fuel` iterations: the list of
snapshots sent to the aggregator channel. -/
def runFramer (decode : Reader → DecodeResult) : Nat → Reader → List (List Block)
  | 0, _ => []
  | fuel + 1, r =>
    match startStep decode r with
    | StepResult.stop => []
    | StepResult.emit bs r' => bs :: runFramer decode fuel r'

/-- The goroutine body of CmdIO.Start: header prologue, then the decode
loop. -/
def CmdIo.Start (decode : Reader → DecodeResult) (fuel : Nat) (r : Reader) : List (List Block) :=
  match consumeHeader r with
  | none => []
  | some r' => runFramer decode fuel r'

/-- The first non-whitespace byte of the stream (the spec's wording of
the header-detection rule). -/
def spec_firstNonWhitespace (r : Reader) : Option Char :=
  r.content.find? (fun c => !unicodeIsSpace c)

/-- Example blocks map for the C3 witness: source 0 holds no matching
block, source 1 holds the block named mpd/now, source 2 also matches but
is registered later. -/
def exClickBlocks : SnapshotMap := fun c =>
  if c = 0 then some [{ FullText := "a" }]
  else if c = 1 then some [{ FullText := "b", Name := "mpd", Instance := "now" }]
  else if c = 2 then some [{ FullText := "c", Name := "mpd", Instance := "now" }]
  else none

/-- Example click event for the C3 witness. -/
def exClickEvent : ClickEvent := { Name := "mpd", Instance := "now", Button := 1 }

/-- A decoder that always fails, for exercising the failure branch. -/
def exFailDecode : Reader → DecodeResult :=
  fun _ => DecodeResult.fail "invalid character" ⟨['x'], [['y']]⟩

/-- A decoder that reports end-of-stream at once. -/
def exEofDecode : Reader → DecodeResult := fun _ => DecodeResult.eof

/-- Example block of the still-active source for the C5 witness. -/
def exBlockA : Block := { FullText := "a1" }

/-- Example block of the frozen source for the C5 witness. -/
def exBlockB : Block := { FullText := "b1", Name := "b" }

/-- Snapshot map for the C5 witness: source 1 has the frozen snapshot. -/
def exFreezeBlocks : SnapshotMap := fun c => if c = 1 then some [exBlockB] else none

/-- Input stream of the C6 amended witness: a full i3bar header line, an
array-opening line, then the block stream. -/
def exHeaderStream : Reader := ⟨("\x7b\"version\":1\x7d\n[\n[]\n").toList, []⟩

/-- Input stream of the C6 counterexample: a single space, then a header
line and an array-opening line. -/
def exWsHeaderStream : Reader := ⟨(" \x7b\"version\":1\x7d\n[\n[]\n").toList, []⟩

@[simp] theorem lookupField_nil (k : String) : lookupField [] k = none := rfl

@[simp] theorem lookupField_cons (k' : String) (v : Json) (rest : List (String × Json)) (k : String) :
    lookupField ((k', v) :: rest) k
      = (lookupField rest k).or (if k' == k then some v else none) := by
  cases h : lookupField rest k <;> simp [lookupField, h, Option.or]

@[simp] theorem lookupField_append (A B : List (String × Json)) (k : String) :
    lookupField (A ++ B) k = (lookupField B k).or (lookupField A k) := by
  induction A with
  | nil => simp
  | cons p A ih =>
    cases p
    simp [ih, Option.or_assoc]

@[simp] theorem lookupField_singleton (k' : String) (v : Json) (k : String) :
    lookupField [(k', v)] k = if k' == k then some v else none := by
  simp [lookupField]

@[simp] theorem lookupField_ite (c : Prop) [Decidable c] (l₁ l₂ : List (String × Json)) (k : String) :
    lookupField (if c then l₁ else l₂) k = if c then lookupField l₁ k else lookupField l₂ k := by
  split <;> rfl

theorem lookupMarshal_full_text (b : Block) :
    lookupField b.marshalFields "full_text" = some (Json.str b.FullText) := by
  cases hS : b.Separator <;> simp [Block.marshalFields, trueBoolTransformer, hS]

theorem lookupMarshal_short_text (b : Block) :
    lookupField b.marshalFields "short_text"
      = if b.ShortText = "" then none else some (Json.str b.ShortText) := by
  cases hS : b.Separator <;> simp [Block.marshalFields, trueBoolTransformer, hS]

theorem lookupMarshal_color (b : Block) :
    lookupField b.marshalFields "color"
      = if b.Color = "" then none else some (Json.str b.Color) := by
  cases hS : b.Separator <;> simp [Block.marshalFields, trueBoolTransformer, hS]

theorem lookupMarshal_min_width (b : Block) :
    lookupField b.marshalFields "min_width"
      = if b.MinWidth = 0 then none else some (Json.num b.MinWidth) := by
  cases hS : b.Separator <;> simp [Block.marshalFields, trueBoolTransformer, hS]

theorem lookupMarshal_align (b : Block) :
    lookupField b.marshalFields "align"
      = if b.Align = "" then none else some (Json.str b.Align) := by
  cases hS : b.Separator <;> simp [Block.marshalFields, trueBoolTransformer, hS]

theorem lookupMarshal_name (b : Block) :
    lookupField b.marshalFields "name"
      = if b.Name = "" then none else some (Json.str b.Name) := by
  cases hS : b.Separator <;> simp [Block.marshalFields, trueBoolTransformer, hS]

theorem lookupMarshal_instance (b : Block) :
    lookupField b.marshalFields "instance"
      = if b.Instance = "" then none else some (Json.str b.Instance) := by
  cases hS : b.Separator <;> simp [Block.marshalFields, trueBoolTransformer, hS]

theorem lookupMarshal_urgent (b : Block) :
    lookupField b.marshalFields "urgent"
      = if b.Urgent = false then none else some (Json.bool b.Urgent) := by
  cases hS : b.Separator <;> simp [Block.marshalFields, trueBoolTransformer, hS]

theorem lookupMarshal_separator (b : Block) :
    lookupField b.marshalFields "separator"
      = if b.Separator then none else some (Json.bool false) := by
  cases hS : b.Separator <;> simp [Block.marshalFields, trueBoolTransformer, hS]

theorem lookupMarshal_separator_block_width (b : Block) :
    lookupField b.marshalFields "separator_block_width"
      = if b.SeparatorBlockWidth = 0 then none else some (Json.num b.SeparatorBlockWidth) := by
  cases hS : b.Separator <;> simp [Block.marshalFields, trueBoolTransformer, hS]

theorem decodeStringField_of_some {fields : List (String × Json)} {k : String} {s : String}
    (h : lookupField fields k = some (Json.str s)) :
    decodeStringField fields k = Except.ok s := by
  rw [decodeStringField, h]

theorem decodeStringField_of_lookup {fields : List (String × Json)} {k : String} {s : String}
    (h : lookupField fields k = if s = "" then none else some (Json.str s)) :
    decodeStringField fields k = Except.ok s := by
  by_cases hs : s = ""
  · subst hs
    simp [decodeStringField, h]
  · simp [decodeStringField, h, hs]

theorem decodeIntField_of_lookup {fields : List (String × Json)} {k : String} {n : Int}
    (h : lookupField fields k = if n = 0 then none else some (Json.num n)) :
    decodeIntField fields k = Except.ok n := by
  by_cases hn : n = 0
  · subst hn
    simp [decodeIntField, h]
  · simp [decodeIntField, h, hn]

theorem decodeBoolField_of_lookup {fields : List (String × Json)} {k : String} {v : Bool}
    (h : lookupField fields k = if v = false then none else some (Json.bool v)) :
    decodeBoolField fields k = Except.ok v := by
  cases v
  · simp [decodeBoolField, h]
  · simp [decodeBoolField, h]

theorem decodeBoolField_of_lookup_sep {fields : List (String × Json)} {k : String} {v : Bool}
    (h : lookupField fields k = if v then none else some (Json.bool false)) :
    decodeBoolField fields k = Except.ok false := by
  cases v
  · simp [decodeBoolField, h]
  · simp [decodeBoolField, h]

theorem blockAlias_roundtrip (b : Block) :
    blockAliasUnmarshal (Block.MarshalJSON b) = Except.ok { b with Separator := false } := by
  rw [Block.MarshalJSON, blockAliasUnmarshal]
  rw [decodeStringField_of_some (lookupMarshal_full_text b),
      decodeStringField_of_lookup (lookupMarshal_short_text b),
      decodeStringField_of_lookup (lookupMarshal_color b),
      decodeIntField_of_lookup (lookupMarshal_min_width b),
      decodeStringField_of_lookup (lookupMarshal_align b),
      decodeStringField_of_lookup (lookupMarshal_name b),
      decodeStringField_of_lookup (lookupMarshal_instance b),
      decodeBoolField_of_lookup (lookupMarshal_urgent b),
      decodeBoolField_of_lookup_sep (lookupMarshal_separator b),
      decodeIntField_of_lookup (lookupMarshal_separator_block_width b)]
  rfl

theorem sep_roundtrip (b : Block) :
    sepUnmarshal (Block.MarshalJSON b)
      = Except.ok (if b.Separator then none else some false) := by
  have h := lookupMarshal_separator b
  cases hS : b.Separator <;>
    simp only [Block.MarshalJSON] at h ⊢ <;>
    simp [sepUnmarshal, h, hS]

/-- Full decode-of-encode round trip of a Block. -/
theorem block_roundtrip (b₀ b : Block) :
    Block.UnmarshalJSON b₀ (Block.MarshalJSON b) = (b, none) := by
  simp only [Block.UnmarshalJSON, blockAlias_roundtrip, sep_roundtrip]
  cases b with
  | mk ft st col mw al nm inst urg sep sbw =>
    cases sep <;> simp

/-- C2. Block separator three-state round-trip: a successfully decoded
object without a `separator` field yields Separator = true; encoding a
Block with Separator = true omits the field; decoding that encoding
succeeds and restores the Block (hence Separator = true); encoding a
Block with Separator = false emits an explicit `separator: false`. -/
theorem C2_separator_three_state (b b₀ b₁ : Block) (fields : List (String × Json)) :
    (Block.UnmarshalJSON b₀ (Json.obj fields) = (b₁, none) →
       lookupField fields "separator" = none → b₁.Separator = true)
    ∧ (b.Separator = true → lookupField b.marshalFields "separator" = none)
    ∧ (b.Separator = true → Block.UnmarshalJSON b₀ (Block.MarshalJSON b) = (b, none))
    ∧ (b.Separator = false → lookupField b.marshalFields "separator" = some (Json.bool false)) := by
  refine ⟨?_, ?_, ?_, ?_⟩
  · intro hdec habsent
    simp only [Block.UnmarshalJSON, sepUnmarshal, habsent] at hdec
    cases h : blockAliasUnmarshal (Json.obj fields) with
    | error e => rw [h] at hdec; cases hdec
    | ok ba => rw [h] at hdec; cases hdec; rfl
  · intro hS
    rw [lookupMarshal_separator, hS]
    rfl
  · intro _
    exact block_roundtrip b₀ b
  · intro hS
    rw [lookupMarshal_separator, hS]
    rfl

theorem C2_separator_three_state_witness :
    (Block.UnmarshalJSON {} (Json.obj [("full_text", Json.str "w")])).1.Separator = true
    ∧ lookupField (Block.marshalFields { FullText := "w", Separator := true }) "separator" = none
    ∧ Block.UnmarshalJSON {} (Block.MarshalJSON { FullText := "w", Separator := true })
        = ({ FullText := "w", Separator := true }, none)
    ∧ lookupField (Block.marshalFields { FullText := "w", Separator := false }) "separator"
        = some (Json.bool false) := by
  refine ⟨?_, ?_, ?_, ?_⟩
  · exact (C2_separator_three_state { FullText := "w", Separator := true } {}
      (Block.UnmarshalJSON {} (Json.obj [("full_text", Json.str "w")])).1
      [("full_text", Json.str "w")]).1 (by decide) rfl
  · exact (C2_separator_three_state { FullText := "w", Separator := true } {} {}
      [("full_text", Json.str "w")]).2.1 rfl
  · exact (C2_separator_three_state { FullText := "w", Separator := true } {} {}
      [("full_text", Json.str "w")]).2.2.1 rfl
  · exact (C2_separator_three_state { FullText := "w", Separator := false } {} {}
      [("full_text", Json.str "w")]).2.2.2 rfl

theorem except_bind_ok_iff {α β : Type} (x : Except String α) (f : α → Except String β) (b : β) :
    (x >>= f) = Except.ok b ↔ ∃ a, x = Except.ok a ∧ f a = Except.ok b := by
  cases x <;> simp [Bind.bind, Except.bind]

theorem blockAlias_ok_sep_ok {fields : List (String × Json)} {ba : Block}
    (h : blockAliasUnmarshal (Json.obj fields) = Except.ok ba) :
    ∃ o, sepUnmarshal (Json.obj fields) = Except.ok o := by
  simp only [blockAliasUnmarshal, except_bind_ok_iff] at h
  obtain ⟨ft, h1, st, h2, col, h3, mw, h4, al, h5, nm, h6, inst, h7, urg, h8, sep, h9, sbw, h10, _⟩ := h
  unfold decodeBoolField at h9
  cases hlk : lookupField fields "separator" with
  | none => exact ⟨none, by simp [sepUnmarshal, hlk]⟩
  | some v =>
    rw [hlk] at h9
    cases v with
    | bool w => exact ⟨some w, by simp [sepUnmarshal, hlk]⟩
    | null => exact ⟨none, by simp [sepUnmarshal, hlk]⟩
    | str s => cases h9
    | num n => cases h9
    | arr xs => cases h9
    | obj fs => cases h9

/-- C8. Whenever Block.UnmarshalJSON returns an error, the Block it was
called on is left unchanged (the failed decode never partially
populates the receiver). -/
theorem C8_unmarshal_error_leaves_receiver (b : Block) (data : Json) (b' : Block) (e : String)
    (h : Block.UnmarshalJSON b data = (b', some e)) : b' = b := by
  unfold Block.UnmarshalJSON at h
  cases hba : blockAliasUnmarshal data with
  | error e' =>
    rw [hba] at h
    cases h
    rfl
  | ok ba =>
    rw [hba] at h
    cases data with
    | obj fields =>
      obtain ⟨o, ho⟩ := blockAlias_ok_sep_ok hba
      rw [ho] at h
      cases o <;> cases h
    | str s => cases hba
    | num n => cases hba
    | bool v => cases hba
    | null => cases hba
    | arr xs => cases hba

theorem C8_unmarshal_error_leaves_receiver_witness :
    (Block.UnmarshalJSON { FullText := "keep", Separator := true } (Json.str "oops")).1
      = { FullText := "keep", Separator := true } := by
  exact C8_unmarshal_error_leaves_receiver { FullText := "keep", Separator := true }
    (Json.str "oops")
    (Block.UnmarshalJSON { FullText := "keep", Separator := true } (Json.str "oops")).1
    "json: cannot unmarshal value into Go value of type blockAlias" (by decide)

/-- C9. The emitted header always carries SIGUSR1 as stop_signal and
SIGUSR2 as cont_signal; the configured stop/cont values only determine
the signals forwarded to children and never the emitted header fields. -/
theorem C9_emitted_header_fixed_signals (h h' : Header)
    (hv : h.Version = h'.Version) (hc : h.ClickEvents = h'.ClickEvents) :
    lookupField ((resolveSignals h).2.marshalFields) "stop_signal" = some (Json.num SIGUSR1)
    ∧ lookupField ((resolveSignals h).2.marshalFields) "cont_signal" = some (Json.num SIGUSR2)
    ∧ emittedHeader h = emittedHeader h'
    ∧ forwardedSignals h = ((if h.StopSignal > 0 then h.StopSignal else SIGSTOP),
                            (if h.ContSignal > 0 then h.ContSignal else SIGCONT)) := by
  refine ⟨?_, ?_, ?_, rfl⟩
  · simp [resolveSignals, Header.marshalFields, SIGUSR1, SIGUSR2]
  · simp [resolveSignals, Header.marshalFields, SIGUSR1, SIGUSR2]
  · simp [emittedHeader, Header.MarshalJSON, Header.marshalFields, resolveSignals, hv, hc]

theorem C9_emitted_header_fixed_signals_witness :
    lookupField ((resolveSignals { StopSignal := 15 }).2.marshalFields) "stop_signal"
        = some (Json.num SIGUSR1)
    ∧ lookupField ((resolveSignals { StopSignal := 15 }).2.marshalFields) "cont_signal"
        = some (Json.num SIGUSR2)
    ∧ emittedHeader { StopSignal := 15 } = emittedHeader { ContSignal := 7 }
    ∧ forwardedSignals { StopSignal := 15 }
        = ((if (15 : Int) > 0 then (15 : Int) else SIGSTOP),
           (if (0 : Int) > 0 then (0 : Int) else SIGCONT)) :=
  C9_emitted_header_fixed_signals { StopSignal := 15 } { ContSignal := 7 } rfl rfl

/-- C10. Every Block whose Separator is false is serialized with an
explicit `separator: false` field; in particular the synthetic error
Block (whose Separator is the zero value false) is. -/
theorem C10_false_separator_always_emitted (b : Block) (cause : String) :
    (b.Separator = false → lookupField b.marshalFields "separator" = some (Json.bool false))
    ∧ (errorBlock cause).Separator = false
    ∧ lookupField (errorBlock cause).marshalFields "separator" = some (Json.bool false) := by
  refine ⟨?_, rfl, ?_⟩
  · intro hS
    rw [lookupMarshal_separator, hS]
    rfl
  · rw [lookupMarshal_separator]
    rfl

theorem C10_false_separator_always_emitted_witness :
    lookupField (Block.marshalFields { FullText := "w", Separator := false }) "separator"
        = some (Json.bool false)
    ∧ (errorBlock "bad").Separator = false
    ∧ lookupField (errorBlock "bad").marshalFields "separator" = some (Json.bool false) :=
  ⟨(C10_false_separator_always_emitted { FullText := "w", Separator := false } "bad").1 rfl,
   (C10_false_separator_always_emitted { FullText := "w", Separator := false } "bad").2.1,
   (C10_false_separator_always_emitted { FullText := "w", Separator := false } "bad").2.2⟩

/-- C7 counterexample. The claim says the two stream handles are always
closed together on every termination path, even when an individual close
fails; but when the reader's Close fails, CmdIO.Close returns early and
the writer is never closed. -/
theorem C7_close_together_counterexample :
    (terminateCmdIo false (some "close failed") none).close.readerClosed = true
    ∧ (terminateCmdIo false (some "close failed") none).close.writerClosed = false := by
  exact ⟨rfl, rfl⟩

theorem sourceMatches_iff_any (blocks : SnapshotMap) (ce : ClickEvent) (bs : List Block)
    (c : Nat) (h : blocks c = some bs) :
    sourceMatches blocks ce c
      ↔ bs.any (fun b => b.Name == ce.Name && b.Instance == ce.Instance) = true := by
  simp [sourceMatches, h, List.any_eq_true]

theorem forwardClickEvent_no_match (blocks : SnapshotMap) (ce : ClickEvent) :
    ∀ cmdios : List Nat, (∀ c ∈ cmdios, ¬ sourceMatches blocks ce c) →
      forwardClickEvent blocks ce cmdios = [] := by
  intro cmdios
  induction cmdios with
  | nil => intro _; rfl
  | cons a rest ih =>
    intro hno
    have hrest : ∀ c ∈ rest, ¬ sourceMatches blocks ce c :=
      fun c hc => hno c (List.mem_cons_of_mem a hc)
    cases hbs : blocks a with
    | none => simp only [forwardClickEvent, hbs]; exact ih hrest
    | some bs =>
      have hne : ¬ (bs.any (fun b => b.Name == ce.Name && b.Instance == ce.Instance) = true) :=
        fun hany => hno a (List.mem_cons_self a rest)
          ((sourceMatches_iff_any blocks ce bs a hbs).mpr hany)
      simp only [forwardClickEvent, hbs, if_neg hne]
      exact ih hrest

theorem forwardClickEvent_first_match (blocks : SnapshotMap) (ce : ClickEvent) (c : Nat)
    (l₂ : List Nat) :
    ∀ l₁ : List Nat, (∀ c' ∈ l₁, ¬ sourceMatches blocks ce c') → sourceMatches blocks ce c →
      forwardClickEvent blocks ce (l₁ ++ c :: l₂) = [(c, ClickEvent.encode ce)] := by
  intro l₁
  induction l₁ with
  | nil =>
    intro _ hm
    cases hbs : blocks c with
    | none =>
      exfalso
      obtain ⟨b, hb, _⟩ := hm
      rw [hbs] at hb
      cases hb
    | some bs =>
      have hany := (sourceMatches_iff_any blocks ce bs c hbs).mp hm
      simp only [List.nil_append, forwardClickEvent, hbs, if_pos hany]
  | cons a rest ih =>
    intro hno hm
    have hrest : ∀ c' ∈ rest, ¬ sourceMatches blocks ce c' :=
      fun c' hc => hno c' (List.mem_cons_of_mem a hc)
    have hna : ¬ sourceMatches blocks ce a := hno a (List.mem_cons_self a rest)
    cases hbs : blocks a with
    | none =>
      simp only [List.cons_append, forwardClickEvent, hbs]
      exact ih hrest hm
    | some bs =>
      have hne : ¬ (bs.any (fun b => b.Name == ce.Name && b.Instance == ce.Instance) = true) :=
        fun hany => hna ((sourceMatches_iff_any blocks ce bs a hbs).mpr hany)
      simp only [List.cons_append, forwardClickEvent, hbs, if_neg hne]
      exact ih hrest hm

/-- C3. A click event is written exactly once, to the input stream of
the first registered source whose current snapshot holds a block with
the event's name and instance; later sources receive nothing, and with
no matching source nothing is written at all. -/
theorem C3_click_event_first_match (blocks : SnapshotMap) (ce : ClickEvent)
    (cmdios l₁ l₂ : List Nat) (c : Nat) :
    (cmdios = l₁ ++ c :: l₂ → (∀ c' ∈ l₁, ¬ sourceMatches blocks ce c') →
        sourceMatches blocks ce c →
        forwardClickEvent blocks ce cmdios = [(c, ClickEvent.encode ce)])
    ∧ ((∀ c' ∈ cmdios, ¬ sourceMatches blocks ce c') →
        forwardClickEvent blocks ce cmdios = []) := by
  constructor
  · intro hsplit hno hm
    rw [hsplit]
    exact forwardClickEvent_first_match blocks ce c l₂ l₁ hno hm
  · exact forwardClickEvent_no_match blocks ce cmdios

theorem C3_click_event_first_match_witness :
    forwardClickEvent exClickBlocks exClickEvent [0, 1, 2]
      = [(1, ClickEvent.encode exClickEvent)] := by
  refine (C3_click_event_first_match exClickBlocks exClickEvent [0, 1, 2] [0] [2] 1).1 rfl ?_ ?_
  · intro c' hc'
    simp only [List.mem_singleton] at hc'
    subst hc'
    intro hm
    obtain ⟨b, hb, hn, _⟩ := hm
    simp only [exClickBlocks, reduceIte, Option.getD_some, List.mem_singleton] at hb
    subst hb
    exact absurd hn (by decide)
  · exact ⟨{ FullText := "b", Name := "mpd", Instance := "now" }, by simp [exClickBlocks], rfl, rfl⟩

theorem mergedBlocks_append (blocks : SnapshotMap) (l₁ l₂ : List Nat) :
    mergedBlocks blocks (l₁ ++ l₂) = mergedBlocks blocks l₁ ++ mergedBlocks blocks l₂ := by
  induction l₁ with
  | nil => rfl
  | cons a rest ih => simp [mergedBlocks, ih]

theorem applyUpdates_foldl (updates : List (Nat × List Block)) :
    ∀ (blocks : SnapshotMap) (src : Nat),
      applyUpdates blocks updates src
        = updates.foldl (fun acc u => if u.1 = src then some u.2 else acc) (blocks src) := by
  induction updates with
  | nil => intro blocks src; rfl
  | cons u rest ih =>
    intro blocks src
    rw [applyUpdates, ih]
    have : storeSnapshot blocks u.1 u.2 src = if u.1 = src then some u.2 else blocks src := by
      by_cases hs : src = u.1
      · simp [storeSnapshot, hs]
      · have hs' : u.1 ≠ src := fun hh => hs hh.symm
        simp [storeSnapshot, hs, hs']
    rw [this]
    rfl

theorem applyUpdates_none_eq_lastStored (updates : List (Nat × List Block)) :
    applyUpdates (fun _ => none) updates = lastStoredSnapshot updates := by
  funext src
  rw [applyUpdates_foldl]
  rfl

theorem mergedOutputsAux_map_succ (cmdios : List Nat) (blocks : SnapshotMap)
    (u : Nat × List Block) (rest : List (Nat × List Block)) (ks : List Nat) :
    mergedOutputsAux cmdios blocks (u :: rest) (ks.map Nat.succ)
      = mergedOutputsAux cmdios (storeSnapshot blocks u.1 u.2) rest ks := by
  induction ks with
  | nil => rfl
  | cons k ks ih =>
    simp only [List.map_cons, mergedOutputsAux, List.take_succ_cons, applyUpdates, ih]

theorem aggregate_eq_aux (cmdios : List Nat) :
    ∀ (updates : List (Nat × List Block)) (blocks : SnapshotMap),
      BlockAggregator.Aggregate cmdios blocks updates
        = mergedOutputsAux cmdios blocks updates (List.range updates.length) := by
  intro updates
  induction updates with
  | nil => intro blocks; rfl
  | cons u rest ih =>
    intro blocks
    obtain ⟨src, snap⟩ := u
    rw [BlockAggregator.Aggregate, List.length_cons, List.range_succ_eq_map]
    rw [mergedOutputsAux, mergedOutputsAux_map_succ, ih]
    rfl

theorem mergedOutputsAux_none (cmdios : List Nat) (updates : List (Nat × List Block))
    (ks : List Nat) :
    mergedOutputsAux cmdios (fun _ => none) updates ks = mergedOutputsAt cmdios updates ks := by
  induction ks with
  | nil => rfl
  | cons k ks ih =>
    rw [mergedOutputsAux, mergedOutputsAt, applyUpdates_none_eq_lastStored, ih]

/-- C1. Starting from the empty snapshot map, the output written by the
Aggregate loop after each update is the JSON array encoding of the
concatenation, in registration order, of each source's most recently
stored snapshot among the updates consumed so far (a source without an
update yet contributing nothing), followed by the separator `,`. -/
theorem C1_aggregate_merged_outputs (cmdios : List Nat) (updates : List (Nat × List Block)) :
    BlockAggregator.Aggregate cmdios (fun _ => none) updates
      = mergedOutputsAt cmdios updates (List.range updates.length) := by
  rw [aggregate_eq_aux, mergedOutputsAux_none]

/-- C4. On a decode failure that is not end-of-stream, the framer loop
emits exactly one synthetic one-element snapshot whose single block has
full_text `Error parsing input: ` followed by the cause and color
`#FF0000`, discards the currently buffered unread bytes, and continues
the loop. -/
theorem C4_decode_failure_error_snapshot (decode : Reader → DecodeResult) (r r₂ : Reader)
    (cause : String) (n : Nat)
    (h : decode (skipIgnoreChars r) = DecodeResult.fail cause r₂) :
    runFramer decode (n + 1) r
      = [{ FullText := "Error parsing input: " ++ cause, Color := "#FF0000" }]
          :: runFramer decode n r₂.discardBuffered
    ∧ r₂.discardBuffered = ⟨[], r₂.pending⟩ := by
  constructor
  · simp only [runFramer, startStep, h]
    rfl
  · rfl

theorem C4_decode_failure_error_snapshot_witness :
    runFramer exFailDecode 1 ⟨[], []⟩
      = [[{ FullText := "Error parsing input: invalid character", Color := "#FF0000" }]]
    ∧ (⟨['x'], [['y']]⟩ : Reader).discardBuffered = ⟨[], [['y']]⟩ := by
  have h := C4_decode_failure_error_snapshot exFailDecode ⟨[], []⟩ ⟨['x'], [['y']]⟩
    "invalid character" 0 rfl
  exact ⟨h.1, h.2⟩

theorem runFramer_eof (decode : Reader → DecodeResult) (r : Reader)
    (h : decode (skipIgnoreChars r) = DecodeResult.eof) :
    ∀ n, runFramer decode n r = [] := by
  intro n
  cases n with
  | zero => rfl
  | succ m => simp only [runFramer, startStep, h]

theorem applyUpdates_frozen (s : Nat) :
    ∀ (updates : List (Nat × List Block)) (blocks : SnapshotMap),
      (∀ u ∈ updates, u.1 ≠ s) → applyUpdates blocks updates s = blocks s := by
  intro updates
  induction updates with
  | nil => intro blocks _; rfl
  | cons u rest ih =>
    intro blocks h
    rw [applyUpdates, ih (storeSnapshot blocks u.1 u.2)
      (fun v hv => h v (List.mem_cons_of_mem u hv))]
    have hu : u.1 ≠ s := h u (List.mem_cons_self u rest)
    have hsu : s ≠ u.1 := fun hh => hu hh.symm
    simp [storeSnapshot, hsu]

theorem mem_mergedOutputsAux (cmdios : List Nat) (blocks : SnapshotMap)
    (updates : List (Nat × List Block)) :
    ∀ (ks : List Nat) (e : Emission), e ∈ mergedOutputsAux cmdios blocks updates ks →
      e = Emission.raw ","
      ∨ ∃ k ∈ ks, e = Emission.json (Json.arr
          ((mergedBlocks (applyUpdates blocks (updates.take (k + 1))) cmdios).map
            Block.MarshalJSON)) := by
  intro ks
  induction ks with
  | nil => intro e he; cases he
  | cons k ks ih =>
    intro e he
    rcases List.mem_cons.mp he with hj | he2
    · exact Or.inr ⟨k, List.mem_cons_self k ks, hj⟩
    rcases List.mem_cons.mp he2 with hr | he3
    · exact Or.inl hr
    rcases ih e he3 with hr | ⟨k', hk', hj⟩
    · exact Or.inl hr
    · exact Or.inr ⟨k', List.mem_cons_of_mem k hk', hj⟩

/-- C5. When a source's decode hits end-of-stream the framer loop exits
without emitting anything, and a source that receives no further updates
keeps its stored snapshot: every merged output produced by other
sources' updates still contains that snapshot unchanged, in its
registration position. -/
theorem C5_eof_freezes_snapshot (decode : Reader → DecodeResult) (r : Reader) (n : Nat)
    (l₁ l₂ : List Nat) (s : Nat) (blocks : SnapshotMap) (updates : List (Nat × List Block))
    (e : Emission)
    (heof : decode (skipIgnoreChars r) = DecodeResult.eof)
    (hs : ∀ u ∈ updates, u.1 ≠ s)
    (he : e ∈ BlockAggregator.Aggregate (l₁ ++ s :: l₂) blocks updates) :
    runFramer decode n r = []
    ∧ applyUpdates blocks updates s = blocks s
    ∧ (e = Emission.raw ","
        ∨ ∃ pre post, e = Emission.json (Json.arr
            (pre ++ ((blocks s).getD []).map Block.MarshalJSON ++ post))) := by
  refine ⟨runFramer_eof decode r heof n, applyUpdates_frozen s updates blocks hs, ?_⟩
  rw [aggregate_eq_aux] at he
  rcases mem_mergedOutputsAux (l₁ ++ s :: l₂) blocks updates _ e he with hraw | ⟨k, _, hj⟩
  · exact Or.inl hraw
  · right
    have hf : applyUpdates blocks (updates.take (k + 1)) s = blocks s :=
      applyUpdates_frozen s _ blocks
        (fun u hu => hs u (List.take_subset (k + 1) updates hu))
    refine ⟨(mergedBlocks (applyUpdates blocks (updates.take (k + 1))) l₁).map Block.MarshalJSON,
            (mergedBlocks (applyUpdates blocks (updates.take (k + 1))) l₂).map Block.MarshalJSON,
            ?_⟩
    rw [hj, mergedBlocks_append]
    rw [show mergedBlocks (applyUpdates blocks (updates.take (k + 1))) (s :: l₂)
          = (applyUpdates blocks (updates.take (k + 1)) s).getD []
              ++ mergedBlocks (applyUpdates blocks (updates.take (k + 1))) l₂ from rfl]
    rw [hf]
    simp [List.map_append]

theorem C5_eof_freezes_snapshot_witness :
    runFramer exEofDecode 3 ⟨['z'], []⟩ = []
    ∧ applyUpdates exFreezeBlocks [(0, [exBlockA])] 1 = exFreezeBlocks 1
    ∧ (Emission.json (Json.arr (([exBlockA] ++ [exBlockB] ++ []).map Block.MarshalJSON))
          = Emission.raw ","
        ∨ ∃ pre post, Emission.json (Json.arr (([exBlockA] ++ [exBlockB] ++ []).map Block.MarshalJSON))
            = Emission.json (Json.arr
                (pre ++ ((exFreezeBlocks 1).getD []).map Block.MarshalJSON ++ post))) := by
  refine C5_eof_freezes_snapshot exEofDecode ⟨['z'], []⟩ 3 [0] [] 1 exFreezeBlocks
    [(0, [exBlockA])]
    (Emission.json (Json.arr (([exBlockA] ++ [exBlockB] ++ []).map Block.MarshalJSON)))
    rfl ?_ ?_
  · intro u hu
    simp only [List.mem_singleton] at hu
    subst hu
    decide
  · exact List.mem_cons_self _ _

theorem readLine_none {r : Reader} (h : r.readRune = none) : readLine r = none := by
  rw [readLine]
  split
  · rfl
  · next c r' heq => rw [h] at heq; cases heq

theorem readLine_newline {r r' : Reader} (h : r.readRune = some ('\n', r')) :
    readLine r = some r' := by
  rw [readLine]
  split
  · next heq => rw [h] at heq; cases heq
  · next c r2 heq =>
    rw [h] at heq
    cases heq
    simp

theorem readLine_step {r r' : Reader} {c : Char} (h : r.readRune = some (c, r'))
    (hc : c ≠ '\n') : readLine r = readLine r' := by
  rw [readLine]
  split
  · next heq => rw [h] at heq; cases heq
  · next c2 r2 heq =>
    rw [h] at heq
    cases heq
    simp [hc]

theorem readLine_content (rest : List Char) :
    ∀ (l : List Char) (r : Reader), '\n' ∉ l → r.content = l ++ '\n' :: rest →
      ∃ r', readLine r = some r' ∧ r'.content = rest := by
  intro l
  induction l with
  | nil =>
    intro r _ hr
    obtain ⟨r', hrr, hc⟩ := Reader.readRune_of_content hr
    exact ⟨r', readLine_newline hrr, hc⟩
  | cons a l ih =>
    intro r hnl hr
    obtain ⟨r', hrr, hc⟩ := Reader.readRune_of_content hr
    have ha : a ≠ '\n' := fun hh => hnl (hh ▸ List.mem_cons_self a l)
    rw [readLine_step hrr ha]
    exact ih r' (fun hh => hnl (List.mem_cons_of_mem a hh)) hc

/-- C6 amended. The framer reads the very first byte of the stream (not
the first non-whitespace byte): exactly when that byte is the opening
brace, it consumes and discards the header line and the following
array-opening line without validating their content; any other first
byte is unread and the stream is treated as a bare sequence of JSON
values starting at that byte. -/
theorem C6_header_detected_on_first_byte (l₁ l₂ rest : List Char) (r : Reader) (c : Char)
    (r₂ : Reader) :
    (('\n' ∉ l₁) → ('\n' ∉ l₂) →
        r.content = '\x7b' :: (l₁ ++ '\n' :: (l₂ ++ '\n' :: rest)) →
        ∃ r', consumeHeader r = some r' ∧ r'.content = rest)
    ∧ (r.readRune = some (c, r₂) → c ≠ '\x7b' →
        consumeHeader r = some (r₂.unread c) ∧ (r₂.unread c).content = r.content) := by
  constructor
  · intro h₁ h₂ hr
    obtain ⟨ra, hread, hca⟩ := Reader.readRune_of_content hr
    obtain ⟨rb, hlb, hcb⟩ := readLine_content (l₂ ++ '\n' :: rest) l₁ ra h₁ hca
    obtain ⟨rc, hlc, hcc⟩ := readLine_content rest l₂ rb h₂ hcb
    refine ⟨rc, ?_, hcc⟩
    simp [consumeHeader, hread, hlb, hlc]
  · intro hread hc
    constructor
    · simp only [consumeHeader, hread, if_neg hc]
    · have := Reader.readRune_content hread
      simp [Reader.unread, Reader.content, this, Reader.content] at this ⊢
      simp [this]

theorem C6_header_detected_on_first_byte_witness :
    (∃ r', consumeHeader exHeaderStream = some r' ∧ r'.content = ("[]\n").toList)
    ∧ (consumeHeader ⟨('x' :: ("abc").toList), []⟩
          = some ((⟨("abc").toList, []⟩ : Reader).unread 'x')
        ∧ ((⟨("abc").toList, []⟩ : Reader).unread 'x').content
            = (⟨('x' :: ("abc").toList), []⟩ : Reader).content) := by
  constructor
  · exact (C6_header_detected_on_first_byte ("\"version\":1\x7d").toList ("[").toList
      ("[]\n").toList exHeaderStream 'x' ⟨[], []⟩).1 (by decide) (by decide) (by decide)
  · exact (C6_header_detected_on_first_byte [] [] [] ⟨('x' :: ("abc").toList), []⟩ 'x'
      ⟨("abc").toList, []⟩).2 rfl (by decide)

/-- C6 counterexample. The claim predicts header consumption whenever
the first non-whitespace byte is the opening brace; on a stream whose
first byte is a space followed by the brace, the first non-whitespace
byte is the brace, yet the code consumes nothing: the stream is left
untouched instead of being advanced past the two header lines. -/
theorem C6_header_peek_counterexample :
    spec_firstNonWhitespace exWsHeaderStream = some '\x7b'
    ∧ (consumeHeader exWsHeaderStream).map Reader.content = some exWsHeaderStream.content
    ∧ (consumeHeader exWsHeaderStream).map Reader.content ≠ some (("[]\n").toList) := by
  refine ⟨by decide, by decide, by decide⟩

/-- C7 amended. On every termination path (signal delivered, or signal
failed and the process killed) Close is invoked, and it always closes
the reader first; the writer is closed exactly when the reader's close
succeeds, so a failing reader close leaves the writer unclosed. -/
theorem C7_close_discipline (signalFails : Bool) (readerErr writerErr : Option String) :
    (terminateCmdIo signalFails readerErr writerErr).close = CmdIo.Close readerErr writerErr
    ∧ (terminateCmdIo signalFails readerErr writerErr).killAttempted = signalFails
    ∧ (CmdIo.Close readerErr writerErr).readerClosed = true
    ∧ ((CmdIo.Close readerErr writerErr).writerClosed = true ↔ readerErr = none) := by
  refine ⟨rfl, rfl, ?_, ?_⟩
  · cases readerErr <;> cases writerErr <;> rfl
  · cases readerErr <;> cases writerErr <;> simp [CmdIo.Close]
